import Mathlib

set_option maxRecDepth 100000

/-!
Verification development for the receipt-extraction core of
`receipt_processing.py` (route-sheet-assistant-v2).

The line-classification and record-accumulation loop of
`extract_receipt_text_to_json` (lines 149-211), the date derivation
(lines 213-216) and the error propagation (lines 82-89, 218-228) are
embedded as executable Lean functions over `List Char` lines.  Python
strings are modelled as `List Char`; `str.lower` / `re.IGNORECASE` are
modelled for ASCII by `lowerChar`; `str.strip` by `pyStrip`; the regex
`(\d+)` by `firstDigitRun`; the priced-item regex search by
`searchPrice`.  Dictionary `prices` is an association list with `Int`
values, mirroring the Python dict built from `price_fields.keys()`.
-/

/-- ASCII model of Python `str.lower` on a single character (and of the
case-folding done by `re.IGNORECASE`): uppercase ASCII letters map to
their lowercase counterparts, every other character is unchanged. -/
def lowerChar (c : Char) : Char :=
  if c = 'A' then 'a' else if c = 'B' then 'b' else if c = 'C' then 'c'
  else if c = 'D' then 'd' else if c = 'E' then 'e' else if c = 'F' then 'f'
  else if c = 'G' then 'g' else if c = 'H' then 'h' else if c = 'I' then 'i'
  else if c = 'J' then 'j' else if c = 'K' then 'k' else if c = 'L' then 'l'
  else if c = 'M' then 'm' else if c = 'N' then 'n' else if c = 'O' then 'o'
  else if c = 'P' then 'p' else if c = 'Q' then 'q' else if c = 'R' then 'r'
  else if c = 'S' then 's' else if c = 'T' then 't' else if c = 'U' then 'u'
  else if c = 'V' then 'v' else if c = 'W' then 'w' else if c = 'X' then 'x'
  else if c = 'Y' then 'y' else if c = 'Z' then 'z' else c

/-- The 26 uppercase/lowercase ASCII pairs: exactly the characters
`lowerChar` changes. -/
def upperLowerPairs : List (Char × Char) :=
  [('A', 'a'), ('B', 'b'), ('C', 'c'), ('D', 'd'), ('E', 'e'), ('F', 'f'),
   ('G', 'g'), ('H', 'h'), ('I', 'i'), ('J', 'j'), ('K', 'k'), ('L', 'l'),
   ('M', 'm'), ('N', 'n'), ('O', 'o'), ('P', 'p'), ('Q', 'q'), ('R', 'r'),
   ('S', 's'), ('T', 't'), ('U', 'u'), ('V', 'v'), ('W', 'w'), ('X', 'x'),
   ('Y', 'y'), ('Z', 'z')]

/-- Lowercase a whole line: model of Python `str.lower`. -/
def lowerL (l : List Char) : List Char := l.map lowerChar

/-- Python whitespace characters recognised by `str.strip` and `\s`
(ASCII range). -/
def isPyWs (c : Char) : Bool :=
  c == ' ' || c == '\t' || c == '\n' || c == '\r' || c == '\x0b' || c == '\x0c'

/-- Model of Python `str.strip`: drop leading and trailing whitespace. -/
def pyStrip (l : List Char) : List Char :=
  ((l.dropWhile isPyWs).reverse.dropWhile isPyWs).reverse

/-- Does `s` start with `pat` (exact characters)? -/
def listStarts : List Char → List Char → Bool
  | [], _ => true
  | _ :: _, [] => false
  | p :: ps, c :: cs => p == c && listStarts ps cs

/-- Does `needle` occur as a contiguous substring of `hay`?  Model of
Python's `needle in hay` on strings. -/
def charListHas (needle : List Char) : List Char → Bool
  | [] => needle.isEmpty
  | c :: cs => listStarts needle (c :: cs) || charListHas needle cs

/-- Does `s` start with `pat` up to ASCII case (model of matching a
literal under `re.IGNORECASE`)? -/
def lowerEqStarts : List Char → List Char → Bool
  | [], _ => true
  | _ :: _, [] => false
  | p :: ps, c :: cs => lowerChar p == lowerChar c && lowerEqStarts ps cs

/-- Numeric value of a run of decimal digit characters: model of Python
`int(...)` applied to the digits captured by `(\d+)`. -/
def natOfDigits (ds : List Char) : Nat :=
  ds.foldl (fun n c => n * 10 + (c.toNat - 48)) 0

/-- The first (leftmost, maximal) run of decimal digits in the line:
model of `re.search(r"(\d+)", line)` returning `group(1)`. -/
def firstDigitRun : List Char → Option (List Char)
  | [] => none
  | c :: rest =>
    if c.isDigit then some (c :: rest.takeWhile Char.isDigit)
    else firstDigitRun rest

/-- The alternatives of the priced-item regex, in source order
(receipt_processing.py line 195). -/
def priceAlternatives : List (List Char) :=
  ["Youth BL".toList, "Youth Renewal".toList, "Adult Renewal".toList,
   "Adult New".toList, "Youth Program Fee".toList, "Adult Program Fee".toList]

/-- Try the regex alternatives in order against the text `s`;  on the
first case-insensitive match return the lowercased label, which is what
`match.group(2).strip().lower()` evaluates to. -/
def firstAlt : List (List Char) → List Char → Option (List Char)
  | [], _ => none
  | a :: as, s =>
    if lowerEqStarts a s then some (a.map lowerChar) else firstAlt as s

/-- Attempt the priced-item regex
`(\d+)\s+(Youth BL|Youth Renewal|Adult Renewal|Adult New|Youth Program Fee|Adult Program Fee)`
anchored at the current position: a maximal digit run, a maximal
whitespace run, then the first alternative that matches
case-insensitively.  (Backtracking below the maximal runs can never
succeed because no alternative begins with a digit or whitespace.) -/
def matchPriceAt (cs : List Char) : Option (Nat × List Char) :=
  if (cs.takeWhile Char.isDigit).isEmpty then none
  else if ((cs.dropWhile Char.isDigit).takeWhile isPyWs).isEmpty then none
  else
    match firstAlt priceAlternatives ((cs.dropWhile Char.isDigit).dropWhile isPyWs) with
    | some label => some (natOfDigits (cs.takeWhile Char.isDigit), label)
    | none => none

/-- Model of `re.search` with the priced-item pattern: try each start
position left to right. -/
def searchPrice : List Char → Option (Nat × List Char)
  | [] => none
  | c :: rest =>
    match matchPriceAt (c :: rest) with
    | some r => some r
    | none => searchPrice rest

/-- The fixed district table (receipt_processing.py lines 125-128), in
the Python dict's insertion = iteration order. -/
def district_map : List (String × Nat) :=
  [("Calumet", 1), ("Aguila", 2), ("Prairie Dunes", 3), ("Thunderbird", 4),
   ("Checaugau", 5), ("Iron Horse", 6), ("Tri-Star", 7), ("Five Creeks", 9),
   ("Tall Grass", 11), ("Trailblazer", 12)]

/-- The 11 fee-category keys of `price_fields`, in dict order
(receipt_processing.py lines 130-142); `prices` is initialised from
them. -/
def priceKeys : List String :=
  ["Youth Registration", "Charter Renewal", "Youth SL Subscription",
   "Youth Transfer", "Adult Registration", "Multiple/Position Change",
   "Adult Transfer", "Adult SL Subscription", "Youth Exploring",
   "Adult Exploring", "Program Fee"]

/-- `prices = {field: 0 for field in price_fields.keys()}`. -/
def initPrices : List (String × Int) := priceKeys.map (fun k => (k, (0 : Int)))

/-- `prices[k] += v` on the association-list model of the dict: the
entry at key `k` is incremented, every other entry is unchanged. -/
def bump (m : List (String × Int)) (k : String) (v : Int) : List (String × Int) :=
  m.map (fun p => (p.1, if p.1 = k then p.2 + v else p.2))

/-- Value of a price entry (0 if the key is absent, which never happens
for the fixed keys). -/
def priceOf (m : List (String × Int)) (k : String) : Int :=
  (List.lookup k m).getD 0

/-- The mutable per-receipt state of the extraction loop: the optional
scalar fields of `data` plus the `prices` dict. -/
structure RecState where
  district_name : Option (List Char)
  district_number : Option Nat
  local_unit_number : Option (List Char)
  program : Option (List Char)
  charter_renewal : Option Nat
  prices : List (String × Int)
deriving DecidableEq

/-- State at the top of the loop: no optional field set, all prices 0. -/
def initState : RecState := ⟨none, none, none, none, none, initPrices⟩

/-- District extraction (lines 153-158): for every table entry whose
lowercased name occurs in the lowercased line, overwrite both district
fields; iteration in table order, so the last matching entry wins. -/
def stepDistrict (st : RecState) (s : List Char) : RecState :=
  district_map.foldl
    (fun acc p =>
      if charListHas (lowerL p.1.toList) (lowerL s) then
        { acc with district_name := some p.1.toList, district_number := some p.2 }
      else acc)
    st

/-- Local-unit-number extraction (lines 160-165): case-sensitive
unit-type keywords, first digit run. -/
def stepUnit (st : RecState) (s : List Char) : RecState :=
  if charListHas "Troop".toList s || charListHas "Pack".toList s ||
     charListHas "Crew".toList s || charListHas "Ship".toList s ||
     charListHas "Post".toList s then
    match firstDigitRun s with
    | some ds => { st with local_unit_number := some ds }
    | none => st
  else st

/-- The corrected charter-renewal quantity a (stripped) line yields,
if any (lines 169-175): requires a trigger substring and a digit run;
a quantity of exactly 100 on a "Unit Charter" line is corrected to 1. -/
def charterQty (s : List Char) : Option Nat :=
  if charListHas "Charter Renewal".toList s || charListHas "Unit Charter".toList s then
    match firstDigitRun s with
    | some ds =>
      let q := natOfDigits ds
      some (if charListHas "Unit Charter".toList s then (if q = 100 then 1 else q) else q)
    | none => none
  else none

/-- Charter-renewal accumulation (lines 169-178): add the quantity to
`prices["Charter Renewal"]` and overwrite `data["charter_renewal"]`. -/
def stepCharter (st : RecState) (s : List Char) : RecState :=
  match charterQty s with
  | some q =>
    { st with prices := bump st.prices "Charter Renewal" (Int.ofNat q),
              charter_renewal := some q }
  | none => st

/-- Program-type cascade (lines 183-192): case-sensitive substring
tests, first matching branch only. -/
def stepProgram (st : RecState) (s : List Char) : RecState :=
  if charListHas "Scouts BSA".toList s || charListHas "Troop".toList s then
    { st with program := some "Scouts BSA".toList }
  else if charListHas "Cub Scouts".toList s || charListHas "Pack".toList s then
    { st with program := some "Cub Scouts".toList }
  else if charListHas "Venturing".toList s || charListHas "Crew".toList s then
    { st with program := some "Venturing".toList }
  else if charListHas "Sea Scouts".toList s || charListHas "Ship".toList s then
    { st with program := some "Sea Scouts".toList }
  else if charListHas "Exploring".toList s || charListHas "Post".toList s then
    { st with program := some "Exploring".toList }
  else st

/-- Priced-line-item accumulation (lines 195-208): on a regex match the
lowercased label selects the price counter to increment. -/
def stepPrice (st : RecState) (s : List Char) : RecState :=
  match searchPrice s with
  | some (count, label) =>
    if charListHas "youth bl".toList label then
      { st with prices := bump st.prices "Youth SL Subscription" (Int.ofNat count) }
    else if charListHas "youth renewal".toList label || charListHas "youth new".toList label then
      { st with prices := bump st.prices "Youth Registration" (Int.ofNat count) }
    else if charListHas "adult renewal".toList label || charListHas "adult new".toList label then
      { st with prices := bump st.prices "Adult Registration" (Int.ofNat count) }
    else if charListHas "program fee".toList label then
      { st with prices := bump st.prices "Program Fee" (Int.ofNat count) }
    else st
  | none => st

/-- One iteration of the extraction loop (lines 149-208): strip the raw
line, then apply the five rules in source order. -/
def processLine (st : RecState) (rawLine : List Char) : RecState :=
  let s := pyStrip rawLine
  stepPrice (stepProgram (stepCharter (stepUnit (stepDistrict st s) s) s) s) s

/-- Fold the whole OCR line sequence through the loop. -/
def processLines (lines : List (List Char)) : RecState :=
  lines.foldl processLine initState

/-- District fact of a (stripped) line: the table pair written by the
line, if any (last matching table entry wins within the line). -/
def districtFactS (s : List Char) : Option (String × Nat) :=
  district_map.foldl
    (fun a p => if charListHas (lowerL p.1.toList) (lowerL s) then some p else a)
    none

/-- District fact of a raw line. -/
def districtFact (rawLine : List Char) : Option (String × Nat) :=
  districtFactS (pyStrip rawLine)

/-- Write a district fact (or nothing) into the record. -/
def applyDistrict (st : RecState) (a : Option (String × Nat)) : RecState :=
  match a with
  | some p => { st with district_name := some p.1.toList, district_number := some p.2 }
  | none => st

/-- Charter fact of a single raw line: the (corrected) quantity the
line contributes, if any. -/
def charterFact (rawLine : List Char) : Option Nat := charterQty (pyStrip rawLine)

/-- A proleptic-Gregorian calendar date, as Python `datetime` dates. -/
structure Date where
  year : Nat
  month : Nat
  day : Nat
deriving DecidableEq

/-- Gregorian leap-year rule (as implemented by Python `datetime`). -/
def isLeap (y : Nat) : Bool := y % 4 == 0 && (y % 100 != 0 || y % 400 == 0)

/-- `_DAYS_BEFORE_MONTH[m]` of CPython's `datetime` module: days in a
non-leap year before month `m`. -/
def daysBeforeMonthTable (m : Nat) : Nat :=
  if m = 1 then 0 else if m = 2 then 31 else if m = 3 then 59
  else if m = 4 then 90 else if m = 5 then 120 else if m = 6 then 151
  else if m = 7 then 181 else if m = 8 then 212 else if m = 9 then 243
  else if m = 10 then 273 else if m = 11 then 304 else 334

/-- Days before January 1 of year `y` (CPython `_days_before_year`). -/
def daysBeforeYear (y : Nat) : Nat :=
  (y - 1) * 365 + (y - 1) / 4 - (y - 1) / 100 + (y - 1) / 400

/-- Proleptic-Gregorian ordinal of a date, day 1 = 0001-01-01: CPython
`date.toordinal` (`_ymd2ord`), which Python's `date + timedelta`
arithmetic goes through. -/
def toOrdinal (d : Date) : Nat :=
  daysBeforeYear d.year
    + daysBeforeMonthTable d.month + (if 2 < d.month && isLeap d.year then 1 else 0)
    + d.day

/-- Inverse of `toOrdinal`: CPython `date.fromordinal` (`_ord2ymd`). -/
def fromOrdinal (n0 : Nat) : Date :=
  let n := n0 - 1
  let n400 := n / 146097
  let r400 := n % 146097
  let n100 := r400 / 36524
  let r100 := r400 % 36524
  let n4 := r100 / 1461
  let r4 := r100 % 1461
  let n1 := r4 / 365
  let r1 := r4 % 365
  let year := n400 * 400 + 1 + n100 * 100 + n4 * 4 + n1
  if n1 = 4 || n100 = 4 then ⟨year - 1, 12, 31⟩
  else
    let leap := n1 == 3 && (n4 != 24 || n100 == 3)
    let month := (r1 + 50) / 32
    let preceding := daysBeforeMonthTable month + (if 2 < month && leap then 1 else 0)
    if r1 < preceding then
      ⟨year, month - 1,
       r1 - (daysBeforeMonthTable (month - 1)
              + (if 2 < month - 1 && leap then 1 else 0)) + 1⟩
    else ⟨year, month, r1 - preceding + 1⟩

/-- `d + timedelta(days=n)`. -/
def addDays (d : Date) (n : Nat) : Date := fromOrdinal (toOrdinal d + n)

/-- `d - timedelta(days=n)`. -/
def subDays (d : Date) (n : Nat) : Date := fromOrdinal (toOrdinal d - n)

/-- The date deriver (lines 213-216):
`effective_date + timedelta(days=365) - timedelta(days=1)`. -/
def deriveExpiration (d : Date) : Date := subDays (addDays d 365) 1

/-- Two zero-padded decimal digits, as `strftime` renders months and
days. -/
def twoDigitChars (n : Nat) : List Char :=
  [Char.ofNat (48 + n / 10 % 10), Char.ofNat (48 + n % 10)]

/-- Four zero-padded decimal digits, as `strftime` renders years in
1000-9999. -/
def fourDigitChars (n : Nat) : List Char :=
  [Char.ofNat (48 + n / 1000 % 10), Char.ofNat (48 + n / 100 % 10),
   Char.ofNat (48 + n / 10 % 10), Char.ofNat (48 + n % 10)]

/-- `strftime("%Y-%m-%d")`: the ISO date string. -/
def formatIso (d : Date) : List Char :=
  fourDigitChars d.year ++ ('-' :: twoDigitChars d.month) ++
    ('-' :: twoDigitChars d.day)

/-- The complete persisted record (`data` at line 224). -/
structure FullRecord where
  council_number : List Char
  effective_date : Date
  expiration_date : Date
  term : List Char
  district_name : Option (List Char)
  district_number : Option Nat
  local_unit_number : Option (List Char)
  program : Option (List Char)
  charter_renewal : Option Nat
  prices : List (String × Int)
deriving DecidableEq

/-- Assemble the full record from the constants, the loop result and
the derived expiration date (lines 118-122, 210-216). -/
def buildRecord (eff : Date) (lines : List (List Char)) : FullRecord :=
  let st := processLines lines
  { council_number := "456".toList,
    effective_date := eff,
    expiration_date := deriveExpiration eff,
    term := "12 months".toList,
    district_name := st.district_name,
    district_number := st.district_number,
    local_unit_number := st.local_unit_number,
    program := st.program,
    charter_renewal := st.charter_renewal,
    prices := st.prices }

/-- Error-propagation skeleton of `extract_receipt_text_to_json`:
`convert_pdf_to_image` re-raises any failure as
`RuntimeError("Failed to convert PDF to image: ...")` (lines 87-89) and
the outer handler re-raises anything as
`RuntimeError("Failed to process receipt: ...")` (lines 226-228);
`json.dump` runs only after the whole loop succeeded (lines 218-224).
`conv` is the outcome of rasterization + OCR (the line sequence on
success); `classify` abstracts the classification/accumulation stage,
which in the concrete pipeline is `fun ls => Except.ok (buildRecord eff ls)`. -/
def runPipeline (conv : Except (List Char) (List (List Char)))
    (classify : List (List Char) → Except (List Char) FullRecord) :
    Except (List Char) FullRecord :=
  match conv with
  | Except.error e =>
    Except.error ("Failed to process receipt: Failed to convert PDF to image: ".toList ++ e)
  | Except.ok lines =>
    match classify lines with
    | Except.error e => Except.error ("Failed to process receipt: ".toList ++ e)
    | Except.ok r => Except.ok r

/-- The record that gets persisted to `data/receipt_data.json`: exactly
the successful result, nothing on failure. -/
def persistedRecord (res : Except (List Char) FullRecord) : Option FullRecord :=
  match res with
  | Except.ok r => some r
  | Except.error _ => none

/-- Glue a (digit-run, whitespace-run, label) triple into one line;
used to quantify over lines of the shape `<k> <label>`. -/
def glueLine (t : List Char × List Char × List Char) : List Char :=
  t.1 ++ t.2.1 ++ t.2.2


/-! ### Character-level facts -/

theorem lowerChar_spec (c : Char) :
    lowerChar c = c ∨ (c, lowerChar c) ∈ upperLowerPairs := by
  by_cases h1 : c = 'A'
  · subst h1; decide
  by_cases h2 : c = 'B'
  · subst h2; decide
  by_cases h3 : c = 'C'
  · subst h3; decide
  by_cases h4 : c = 'D'
  · subst h4; decide
  by_cases h5 : c = 'E'
  · subst h5; decide
  by_cases h6 : c = 'F'
  · subst h6; decide
  by_cases h7 : c = 'G'
  · subst h7; decide
  by_cases h8 : c = 'H'
  · subst h8; decide
  by_cases h9 : c = 'I'
  · subst h9; decide
  by_cases h10 : c = 'J'
  · subst h10; decide
  by_cases h11 : c = 'K'
  · subst h11; decide
  by_cases h12 : c = 'L'
  · subst h12; decide
  by_cases h13 : c = 'M'
  · subst h13; decide
  by_cases h14 : c = 'N'
  · subst h14; decide
  by_cases h15 : c = 'O'
  · subst h15; decide
  by_cases h16 : c = 'P'
  · subst h16; decide
  by_cases h17 : c = 'Q'
  · subst h17; decide
  by_cases h18 : c = 'R'
  · subst h18; decide
  by_cases h19 : c = 'S'
  · subst h19; decide
  by_cases h20 : c = 'T'
  · subst h20; decide
  by_cases h21 : c = 'U'
  · subst h21; decide
  by_cases h22 : c = 'V'
  · subst h22; decide
  by_cases h23 : c = 'W'
  · subst h23; decide
  by_cases h24 : c = 'X'
  · subst h24; decide
  by_cases h25 : c = 'Y'
  · subst h25; decide
  by_cases h26 : c = 'Z'
  · subst h26; decide
  left
  unfold lowerChar
  rw [if_neg h1, if_neg h2, if_neg h3, if_neg h4, if_neg h5, if_neg h6, if_neg h7, if_neg h8, if_neg h9, if_neg h10, if_neg h11, if_neg h12, if_neg h13, if_neg h14, if_neg h15, if_neg h16, if_neg h17, if_neg h18, if_neg h19, if_neg h20, if_neg h21, if_neg h22, if_neg h23, if_neg h24, if_neg h25, if_neg h26]

theorem lowerChar_of_isDigit (c : Char) (h : c.isDigit = true) : lowerChar c = c := by
  rcases lowerChar_spec c with hs | hs
  · exact hs
  · have hfst : ∀ p ∈ upperLowerPairs, p.1.isDigit = false := by decide
    exact absurd h (by simp [hfst (c, lowerChar c) hs])

theorem isPyWs_lowerChar (c : Char) : isPyWs (lowerChar c) = isPyWs c := by
  rcases lowerChar_spec c with hs | hs
  · rw [hs]
  · have hws : ∀ p ∈ upperLowerPairs, isPyWs p.1 = false ∧ isPyWs p.2 = false := by decide
    have h1 := (hws (c, lowerChar c) hs).1
    have h2 := (hws (c, lowerChar c) hs).2
    simp only at h1 h2
    rw [h1, h2]

theorem isDigit_eq_false_of_isPyWs (c : Char) (h : isPyWs c = true) : c.isDigit = false := by
  unfold isPyWs at h
  simp only [Bool.or_eq_true, beq_iff_eq] at h
  rcases h with ((((h | h) | h) | h) | h) | h <;> subst h <;> decide

theorem isPyWs_eq_false_of_isDigit (c : Char) (h : c.isDigit = true) : isPyWs c = false := by
  cases hw : isPyWs c
  · rfl
  · exact absurd h (by simp [isDigit_eq_false_of_isPyWs c hw])

theorem isDigit_eq_false_of_lowerChar_mem (c : Char) (L : List Char)
    (hL : ∀ x ∈ L, x.isDigit = false) (h : lowerChar c ∈ L) : c.isDigit = false := by
  cases hd : c.isDigit
  · rfl
  · rw [lowerChar_of_isDigit c hd] at h
    exact absurd hd (by simp [hL c h])

/-! ### takeWhile / dropWhile / strip facts -/

theorem takeWhile_all_append (p : Char → Bool) (xs : List Char) (y : Char) (ys : List Char)
    (hxs : ∀ a ∈ xs, p a = true) (hy : p y = false) :
    (xs ++ y :: ys).takeWhile p = xs := by
  induction xs with
  | nil => simp [List.takeWhile_cons_of_neg, hy]
  | cons a t ih =>
    rw [List.cons_append, List.takeWhile_cons_of_pos (hxs a (by simp)),
      ih (fun b hb => hxs b (by simp [hb]))]

theorem dropWhile_all_append (p : Char → Bool) (xs : List Char) (y : Char) (ys : List Char)
    (hxs : ∀ a ∈ xs, p a = true) (hy : p y = false) :
    (xs ++ y :: ys).dropWhile p = y :: ys := by
  induction xs with
  | nil => simp [List.dropWhile_cons_of_neg, hy]
  | cons a t ih =>
    rw [List.cons_append, List.dropWhile_cons_of_pos (hxs a (by simp))]
    exact ih (fun b hb => hxs b (by simp [hb]))

theorem dropWhile_head_false (p : Char → Bool) (l : List Char)
    (h : ∀ c, l.head? = some c → p c = false) : l.dropWhile p = l := by
  cases l with
  | nil => rfl
  | cons a t => simp [List.dropWhile_cons_of_neg, h a rfl]

theorem pyStrip_eq_self (l : List Char)
    (h1 : ∀ c, l.head? = some c → isPyWs c = false)
    (h2 : ∀ c, l.getLast? = some c → isPyWs c = false) :
    pyStrip l = l := by
  unfold pyStrip
  rw [dropWhile_head_false _ l h1]
  rw [dropWhile_head_false _ l.reverse (fun c hc => h2 c (by rwa [List.head?_reverse] at hc))]
  exact l.reverse_reverse

/-! ### Substring facts -/

theorem listStarts_mem (pat s : List Char) (h : listStarts pat s = true) :
    ∀ c ∈ pat, c ∈ s := by
  induction pat generalizing s with
  | nil => simp
  | cons p ps ih =>
    cases s with
    | nil => exact absurd h (by simp [listStarts])
    | cons a t =>
      simp only [listStarts, Bool.and_eq_true, beq_iff_eq] at h
      intro c hc
      rcases List.mem_cons.1 hc with hc | hc
      · subst hc; rw [h.1]; exact List.mem_cons_self _ _
      · exact List.mem_cons_of_mem _ (ih t h.2 c hc)

theorem charListHas_mem (needle hay : List Char) (h : charListHas needle hay = true) :
    ∀ c ∈ needle, c ∈ hay := by
  induction hay with
  | nil =>
    intro c hc
    cases needle with
    | nil => simp at hc
    | cons a t => simp [charListHas, List.isEmpty] at h
  | cons a t ih =>
    unfold charListHas at h
    simp only [Bool.or_eq_true] at h
    rcases h with h | h
    · exact listStarts_mem needle (a :: t) h
    · exact fun c hc => List.mem_cons_of_mem _ (ih h c hc)

theorem charListHas_eq_false_of_not_mem (needle hay : List Char) (c : Char)
    (hc : c ∈ needle) (hhay : c ∉ hay) : charListHas needle hay = false := by
  cases h : charListHas needle hay
  · rfl
  · exact absurd (charListHas_mem needle hay h c hc) hhay

theorem lowerEqStarts_eq_listStarts (pat s : List Char) :
    lowerEqStarts pat s = listStarts (lowerL pat) (lowerL s) := by
  induction pat generalizing s with
  | nil => simp [lowerEqStarts, lowerL, listStarts]
  | cons p ps ih =>
    cases s with
    | nil => simp [lowerEqStarts, lowerL, listStarts]
    | cons a t =>
      simp only [lowerEqStarts, lowerL, List.map_cons, listStarts]
      rw [ih t]
      rfl

/-! ### Price-dictionary facts -/

theorem keys_bump (m : List (String × Int)) (k : String) (v : Int) :
    (bump m k v).map Prod.fst = m.map Prod.fst := by
  simp [bump, List.map_map]

theorem lookup_bump_self (m : List (String × Int)) (k : String) (v : Int) :
    List.lookup k (bump m k v) = (List.lookup k m).map (fun x => x + v) := by
  induction m with
  | nil => rfl
  | cons p t ih =>
    obtain ⟨a, b⟩ := p
    simp only [bump, List.map_cons, List.lookup]
    cases hka : k == a
    · exact ih
    · have : a = k := (beq_iff_eq.1 hka).symm
      simp [this]

theorem lookup_bump_ne (m : List (String × Int)) (k k' : String) (v : Int)
    (h : k' ≠ k) : List.lookup k' (bump m k v) = List.lookup k' m := by
  induction m with
  | nil => rfl
  | cons p t ih =>
    obtain ⟨a, b⟩ := p
    simp only [bump, List.map_cons, List.lookup]
    cases hka : k' == a
    · exact ih
    · have hak : a ≠ k := by
        have : k' = a := beq_iff_eq.1 hka
        rw [← this]; exact h
      simp [hak]

theorem nonneg_bump (m : List (String × Int)) (k : String) (v : Int)
    (hv : 0 ≤ v) (hm : ∀ p ∈ m, 0 ≤ p.2) : ∀ p ∈ bump m k v, 0 ≤ p.2 := by
  intro p hp
  rcases List.mem_map.1 hp with ⟨q, hq, rfl⟩
  by_cases hqk : q.1 = k
  · simp only [hqk, if_pos rfl]
    exact add_nonneg (hm q hq) hv
  · simp only [if_neg hqk]
    exact hm q hq

/-! ### Step-level facts -/

theorem district_foldl_applyOpt (s : List Char) (tbl : List (String × Nat)) :
    ∀ (st : RecState) (a : Option (String × Nat)),
    tbl.foldl
      (fun acc p =>
        if charListHas (lowerL p.1.toList) (lowerL s) then
          { acc with district_name := some p.1.toList, district_number := some p.2 }
        else acc)
      (applyDistrict st a)
      = applyDistrict st
          (tbl.foldl
            (fun x p => if charListHas (lowerL p.1.toList) (lowerL s) then some p else x)
            a) := by
  induction tbl with
  | nil => intro st a; rfl
  | cons hd tl ih =>
    intro st a
    simp only [List.foldl_cons]
    by_cases h : charListHas (lowerL hd.1.toList) (lowerL s) = true
    · rw [if_pos h, if_pos h]
      have harw :
          { applyDistrict st a with
              district_name := some hd.1.toList, district_number := some hd.2 }
            = applyDistrict st (some hd) := by
        cases a <;> rfl
      rw [harw]
      exact ih st (some hd)
    · rw [if_neg h, if_neg h]
      exact ih st a

theorem stepDistrict_eq (st : RecState) (s : List Char) :
    stepDistrict st s = applyDistrict st (districtFactS s) := by
  have h := district_foldl_applyOpt s district_map st none
  exact h

theorem district_foldl_mem (s : List Char) (tbl : List (String × Nat)) :
    ∀ (a : Option (String × Nat)) (p : String × Nat),
    tbl.foldl
      (fun x q => if charListHas (lowerL q.1.toList) (lowerL s) then some q else x) a
      = some p → p ∈ tbl ∨ a = some p := by
  induction tbl with
  | nil => intro a p h; exact Or.inr h
  | cons hd tl ih =>
    intro a p h
    simp only [List.foldl_cons] at h
    by_cases hc : charListHas (lowerL hd.1.toList) (lowerL s) = true
    · rw [if_pos hc] at h
      rcases ih (some hd) p h with h1 | h1
      · exact Or.inl (List.mem_cons_of_mem _ h1)
      · exact Or.inl (by simp at h1; simp [h1])
    · rw [if_neg hc] at h
      rcases ih a p h with h1 | h1
      · exact Or.inl (List.mem_cons_of_mem _ h1)
      · exact Or.inr h1

theorem districtFactS_mem (s : List Char) (p : String × Nat)
    (h : districtFactS s = some p) : p ∈ district_map := by
  rcases district_foldl_mem s district_map none p h with h1 | h1
  · exact h1
  · exact absurd h1 (by simp)

theorem stepDistrict_scalars (st : RecState) (s : List Char) :
    (stepDistrict st s).local_unit_number = st.local_unit_number ∧
    (stepDistrict st s).program = st.program ∧
    (stepDistrict st s).charter_renewal = st.charter_renewal ∧
    (stepDistrict st s).prices = st.prices := by
  rw [stepDistrict_eq]
  cases districtFactS s <;> exact ⟨rfl, rfl, rfl, rfl⟩

theorem stepUnit_scalars (st : RecState) (s : List Char) :
    (stepUnit st s).district_name = st.district_name ∧
    (stepUnit st s).district_number = st.district_number ∧
    (stepUnit st s).program = st.program ∧
    (stepUnit st s).charter_renewal = st.charter_renewal ∧
    (stepUnit st s).prices = st.prices := by
  unfold stepUnit
  split
  · cases firstDigitRun s <;> exact ⟨rfl, rfl, rfl, rfl, rfl⟩
  · exact ⟨rfl, rfl, rfl, rfl, rfl⟩

theorem stepCharter_of_some (st : RecState) (s : List Char) (q : Nat)
    (h : charterQty s = some q) :
    stepCharter st s =
      { st with prices := bump st.prices "Charter Renewal" (Int.ofNat q),
                charter_renewal := some q } := by
  unfold stepCharter
  rw [h]

theorem stepCharter_of_none (st : RecState) (s : List Char)
    (h : charterQty s = none) : stepCharter st s = st := by
  unfold stepCharter
  rw [h]

theorem stepCharter_scalars (st : RecState) (s : List Char) :
    (stepCharter st s).district_name = st.district_name ∧
    (stepCharter st s).district_number = st.district_number ∧
    (stepCharter st s).local_unit_number = st.local_unit_number ∧
    (stepCharter st s).program = st.program := by
  unfold stepCharter
  cases charterQty s <;> exact ⟨rfl, rfl, rfl, rfl⟩

theorem stepProgram_scalars (st : RecState) (s : List Char) :
    (stepProgram st s).district_name = st.district_name ∧
    (stepProgram st s).district_number = st.district_number ∧
    (stepProgram st s).local_unit_number = st.local_unit_number ∧
    (stepProgram st s).charter_renewal = st.charter_renewal ∧
    (stepProgram st s).prices = st.prices := by
  unfold stepProgram
  split_ifs <;> exact ⟨rfl, rfl, rfl, rfl, rfl⟩

theorem stepPrice_scalars (st : RecState) (s : List Char) :
    (stepPrice st s).district_name = st.district_name ∧
    (stepPrice st s).district_number = st.district_number ∧
    (stepPrice st s).local_unit_number = st.local_unit_number ∧
    (stepPrice st s).program = st.program ∧
    (stepPrice st s).charter_renewal = st.charter_renewal := by
  unfold stepPrice
  cases searchPrice s with
  | none => exact ⟨rfl, rfl, rfl, rfl, rfl⟩
  | some r =>
    obtain ⟨k, lab⟩ := r
    dsimp only
    split_ifs <;> exact ⟨rfl, rfl, rfl, rfl, rfl⟩

theorem stepPrice_keys (st : RecState) (s : List Char) :
    (stepPrice st s).prices.map Prod.fst = st.prices.map Prod.fst := by
  unfold stepPrice
  cases searchPrice s with
  | none => rfl
  | some r =>
    obtain ⟨k, lab⟩ := r
    dsimp only
    split_ifs <;> simp [keys_bump]

theorem stepPrice_lookup_charter (st : RecState) (s : List Char) :
    List.lookup "Charter Renewal" (stepPrice st s).prices
      = List.lookup "Charter Renewal" st.prices := by
  unfold stepPrice
  cases searchPrice s with
  | none => rfl
  | some r =>
    obtain ⟨k, lab⟩ := r
    dsimp only
    split_ifs <;> first
      | rfl
      | (exact lookup_bump_ne _ _ _ _ (by decide))

theorem stepPrice_nonneg (st : RecState) (s : List Char)
    (hm : ∀ p ∈ st.prices, 0 ≤ p.2) : ∀ p ∈ (stepPrice st s).prices, 0 ≤ p.2 := by
  unfold stepPrice
  cases searchPrice s with
  | none => exact hm
  | some r =>
    obtain ⟨k, lab⟩ := r
    dsimp only
    split_ifs <;> first
      | exact hm
      | (exact nonneg_bump _ _ _ (Int.ofNat_nonneg k) hm)

/-! ### Per-line facts about the loop body -/

theorem processLine_charter (st : RecState) (l : List Char) :
    (processLine st l).charter_renewal
      = (match charterFact l with
         | some q => some q
         | none => st.charter_renewal) ∧
    List.lookup "Charter Renewal" (processLine st l).prices
      = (match charterFact l with
         | some q =>
           (List.lookup "Charter Renewal" st.prices).map (fun x => x + Int.ofNat q)
         | none => List.lookup "Charter Renewal" st.prices) := by
  unfold processLine charterFact
  cases hq : charterQty (pyStrip l) with
  | some q =>
    constructor
    · rw [(stepPrice_scalars _ _).2.2.2.2, (stepProgram_scalars _ _).2.2.2.1,
        stepCharter_of_some _ _ q hq]
    · rw [stepPrice_lookup_charter, (stepProgram_scalars _ _).2.2.2.2,
        stepCharter_of_some _ _ q hq]
      dsimp only
      rw [lookup_bump_self, (stepUnit_scalars _ _).2.2.2.2,
        (stepDistrict_scalars _ _).2.2.2]
  | none =>
    constructor
    · rw [(stepPrice_scalars _ _).2.2.2.2, (stepProgram_scalars _ _).2.2.2.1,
        stepCharter_of_none _ _ hq, (stepUnit_scalars _ _).2.2.2.1,
        (stepDistrict_scalars _ _).2.2.1]
    · rw [stepPrice_lookup_charter, (stepProgram_scalars _ _).2.2.2.2,
        stepCharter_of_none _ _ hq, (stepUnit_scalars _ _).2.2.2.2,
        (stepDistrict_scalars _ _).2.2.2]

theorem processLine_district (st : RecState) (l : List Char) :
    (processLine st l).district_name
      = (match districtFact l with
         | some p => some p.1.toList
         | none => st.district_name) ∧
    (processLine st l).district_number
      = (match districtFact l with
         | some p => some p.2
         | none => st.district_number) := by
  unfold processLine districtFact
  constructor
  · rw [(stepPrice_scalars _ _).1, (stepProgram_scalars _ _).1,
      (stepCharter_scalars _ _).1, (stepUnit_scalars _ _).1, stepDistrict_eq]
    cases districtFactS (pyStrip l) <;> rfl
  · rw [(stepPrice_scalars _ _).2.1, (stepProgram_scalars _ _).2.1,
      (stepCharter_scalars _ _).2.1, (stepUnit_scalars _ _).2.1, stepDistrict_eq]
    cases districtFactS (pyStrip l) <;> rfl

theorem processLine_keys (st : RecState) (l : List Char) :
    (processLine st l).prices.map Prod.fst = st.prices.map Prod.fst := by
  unfold processLine
  rw [stepPrice_keys, (stepProgram_scalars _ _).2.2.2.2]
  cases hq : charterQty (pyStrip l) with
  | some q =>
    rw [stepCharter_of_some _ _ q hq]
    dsimp only
    rw [keys_bump, (stepUnit_scalars _ _).2.2.2.2, (stepDistrict_scalars _ _).2.2.2]
  | none =>
    rw [stepCharter_of_none _ _ hq, (stepUnit_scalars _ _).2.2.2.2,
      (stepDistrict_scalars _ _).2.2.2]

theorem processLine_nonneg (st : RecState) (l : List Char)
    (hm : ∀ p ∈ st.prices, 0 ≤ p.2) : ∀ p ∈ (processLine st l).prices, 0 ≤ p.2 := by
  unfold processLine
  apply stepPrice_nonneg
  intro p hp
  rw [(stepProgram_scalars _ _).2.2.2.2] at hp
  cases hq : charterQty (pyStrip l) with
  | some q =>
    rw [stepCharter_of_some _ _ q hq] at hp
    dsimp only at hp
    refine nonneg_bump _ _ _ (Int.ofNat_nonneg q) ?_ p hp
    intro r hr
    rw [(stepUnit_scalars _ _).2.2.2.2, (stepDistrict_scalars _ _).2.2.2] at hr
    exact hm r hr
  | none =>
    rw [stepCharter_of_none _ _ hq, (stepUnit_scalars _ _).2.2.2.2,
      (stepDistrict_scalars _ _).2.2.2] at hp
    exact hm p hp

/-! ### Whole-fold facts -/

theorem fold_charter (lines : List (List Char)) :
    ∀ st : RecState,
    ((List.foldl processLine st lines).charter_renewal
      = (match (lines.filterMap charterFact).getLast? with
         | some q => some q
         | none => st.charter_renewal)) ∧
    ∀ v, List.lookup "Charter Renewal" st.prices = some v →
      List.lookup "Charter Renewal" (List.foldl processLine st lines).prices
        = some (v + ((lines.filterMap charterFact).map Int.ofNat).sum) := by
  induction lines with
  | nil =>
    intro st
    refine ⟨rfl, fun v hv => ?_⟩
    simpa using hv
  | cons l ls ih =>
    intro st
    simp only [List.foldl_cons, List.filterMap_cons]
    have h1 := (processLine_charter st l).1
    have h2 := (processLine_charter st l).2
    cases hf : charterFact l with
    | none =>
      rw [hf] at h1 h2
      dsimp only at h1 h2
      constructor
      · rw [(ih (processLine st l)).1, h1]
      · intro v hv
        exact (ih (processLine st l)).2 v (by rw [h2]; exact hv)
    | some q =>
      rw [hf] at h1 h2
      dsimp only at h1 h2
      constructor
      · rw [(ih (processLine st l)).1, h1]
        cases hlast : (ls.filterMap charterFact).getLast? <;>
          simp [List.getLast?_cons, hlast]
      · intro v hv
        have h3 := (ih (processLine st l)).2 (v + Int.ofNat q) (by rw [h2, hv]; rfl)
        rw [h3]
        simp [List.sum_cons, add_assoc]

theorem fold_district (lines : List (List Char)) :
    ∀ st : RecState,
    ((List.foldl processLine st lines).district_name
      = (match (lines.filterMap districtFact).getLast? with
         | some p => some p.1.toList
         | none => st.district_name)) ∧
    ((List.foldl processLine st lines).district_number
      = (match (lines.filterMap districtFact).getLast? with
         | some p => some p.2
         | none => st.district_number)) := by
  induction lines with
  | nil => intro st; exact ⟨rfl, rfl⟩
  | cons l ls ih =>
    intro st
    simp only [List.foldl_cons, List.filterMap_cons]
    have h1 := (processLine_district st l).1
    have h2 := (processLine_district st l).2
    cases hf : districtFact l with
    | none =>
      rw [hf] at h1 h2
      dsimp only at h1 h2
      refine ⟨?_, ?_⟩
      · rw [(ih (processLine st l)).1, h1]
      · rw [(ih (processLine st l)).2, h2]
    | some p =>
      rw [hf] at h1 h2
      dsimp only at h1 h2
      refine ⟨?_, ?_⟩
      · rw [(ih (processLine st l)).1, h1]
        cases hlast : (ls.filterMap districtFact).getLast? <;>
          simp [List.getLast?_cons, hlast]
      · rw [(ih (processLine st l)).2, h2]
        cases hlast : (ls.filterMap districtFact).getLast? <;>
          simp [List.getLast?_cons, hlast]

theorem fold_keys (lines : List (List Char)) :
    ∀ st : RecState,
    (List.foldl processLine st lines).prices.map Prod.fst = st.prices.map Prod.fst := by
  induction lines with
  | nil => intro st; rfl
  | cons l ls ih =>
    intro st
    simp only [List.foldl_cons]
    rw [ih (processLine st l), processLine_keys]

theorem fold_nonneg (lines : List (List Char)) :
    ∀ st : RecState, (∀ p ∈ st.prices, 0 ≤ p.2) →
    ∀ p ∈ (List.foldl processLine st lines).prices, 0 ≤ p.2 := by
  induction lines with
  | nil => intro st h; exact h
  | cons l ls ih =>
    intro st h
    simp only [List.foldl_cons]
    exact ih (processLine st l) (processLine_nonneg st l h)

/-! ### Regex-search facts -/

theorem takeWhile_all (p : Char → Bool) (l : List Char) (h : ∀ a ∈ l, p a = true) :
    l.takeWhile p = l := by
  induction l with
  | nil => rfl
  | cons a t ih =>
    rw [List.takeWhile_cons_of_pos (h a (by simp)), ih (fun b hb => h b (by simp [hb]))]

theorem dropWhile_all (p : Char → Bool) (l : List Char) (h : ∀ a ∈ l, p a = true) :
    l.dropWhile p = [] := by
  induction l with
  | nil => rfl
  | cons a t ih =>
    rw [List.dropWhile_cons_of_pos (h a (by simp))]
    exact ih (fun b hb => h b (by simp [hb]))

theorem matchPriceAt_decomp (ds ws lab : List Char)
    (hds : ds ≠ []) (hdsall : ∀ c ∈ ds, c.isDigit = true)
    (hws : ws ≠ []) (hwsall : ∀ c ∈ ws, isPyWs c = true)
    (hlab : ∀ c, lab.head? = some c → isPyWs c = false ∧ c.isDigit = false) :
    matchPriceAt (ds ++ ws ++ lab) =
      (match firstAlt priceAlternatives lab with
       | some label => some (natOfDigits ds, label)
       | none => none) := by
  cases ws with
  | nil => exact absurd rfl hws
  | cons w ws' =>
    have hw : isPyWs w = true := hwsall w (by simp)
    have hassoc : ds ++ (w :: ws') ++ lab = ds ++ (w :: (ws' ++ lab)) := by
      rw [List.append_assoc]; rfl
    have htake : (ds ++ (w :: ws') ++ lab).takeWhile Char.isDigit = ds := by
      rw [hassoc]
      exact takeWhile_all_append _ ds w (ws' ++ lab) hdsall
        (isDigit_eq_false_of_isPyWs w hw)
    have hdrop : (ds ++ (w :: ws') ++ lab).dropWhile Char.isDigit = (w :: ws') ++ lab := by
      rw [hassoc]
      exact dropWhile_all_append _ ds w (ws' ++ lab) hdsall
        (isDigit_eq_false_of_isPyWs w hw)
    have htake2 : ((w :: ws') ++ lab).takeWhile isPyWs = w :: ws' := by
      cases lab with
      | nil => rw [List.append_nil]; exact takeWhile_all _ _ hwsall
      | cons c lab' =>
        exact takeWhile_all_append _ (w :: ws') c lab' hwsall (hlab c rfl).1
    have hdrop2 : ((w :: ws') ++ lab).dropWhile isPyWs = lab := by
      cases lab with
      | nil => rw [List.append_nil]; simpa using dropWhile_all _ _ hwsall
      | cons c lab' =>
        exact dropWhile_all_append _ (w :: ws') c lab' hwsall (hlab c rfl).1
    unfold matchPriceAt
    rw [htake, hdrop, htake2, hdrop2]
    have hdse : ds.isEmpty = false := by
      cases ds with
      | nil => exact absurd rfl hds
      | cons d t => rfl
    rw [hdse]
    rfl

theorem stepPrice_of_none (st : RecState) (s : List Char)
    (h : searchPrice s = none) : stepPrice st s = st := by
  unfold stepPrice
  rw [h]

theorem searchPrice_none_of_nondigit (l : List Char)
    (h : ∀ c ∈ l, c.isDigit = false) : searchPrice l = none := by
  induction l with
  | nil => rfl
  | cons c t ih =>
    have hc : c.isDigit = false := h c (by simp)
    have hm : matchPriceAt (c :: t) = none := by
      unfold matchPriceAt
      rw [List.takeWhile_cons_of_neg (by simp [hc])]
      rfl
    unfold searchPrice
    rw [hm]
    exact ih (fun b hb => h b (by simp [hb]))

theorem searchPrice_none_ws_append (ws lab : List Char)
    (hwsall : ∀ c ∈ ws, isPyWs c = true)
    (hlabnd : ∀ c ∈ lab, c.isDigit = false) : searchPrice (ws ++ lab) = none := by
  induction ws with
  | nil => exact searchPrice_none_of_nondigit lab hlabnd
  | cons w ws' ih =>
    have hw : Char.isDigit w = false :=
      isDigit_eq_false_of_isPyWs w (hwsall w (by simp))
    have hm : matchPriceAt (w :: (ws' ++ lab)) = none := by
      unfold matchPriceAt
      rw [List.takeWhile_cons_of_neg (by simp [hw])]
      rfl
    show searchPrice (w :: (ws' ++ lab)) = none
    unfold searchPrice
    rw [hm]
    exact ih (fun b hb => hwsall b (by simp [hb]))

theorem searchPrice_none_shape (ws lab : List Char)
    (hws : ws ≠ []) (hwsall : ∀ c ∈ ws, isPyWs c = true)
    (hlab : ∀ c, lab.head? = some c → isPyWs c = false ∧ c.isDigit = false)
    (hlabnd : ∀ c ∈ lab, c.isDigit = false)
    (halt : firstAlt priceAlternatives lab = none) :
    ∀ ds : List Char, (∀ c ∈ ds, c.isDigit = true) →
      searchPrice (ds ++ ws ++ lab) = none := by
  intro ds
  induction ds with
  | nil =>
    intro _
    simpa using searchPrice_none_ws_append ws lab hwsall hlabnd
  | cons d ds' ih =>
    intro hall
    have hm := matchPriceAt_decomp (d :: ds') ws lab (by simp) hall hws hwsall hlab
    rw [halt] at hm
    have hm' : matchPriceAt (d :: (ds' ++ ws ++ lab)) = none := hm
    show searchPrice (d :: (ds' ++ ws ++ lab)) = none
    unfold searchPrice
    rw [hm']
    exact ih (fun b hb => hall b (by simp [hb]))

theorem searchPrice_shape_some (ds ws lab : List Char)
    (hds : ds ≠ []) (hdsall : ∀ c ∈ ds, c.isDigit = true)
    (hws : ws ≠ []) (hwsall : ∀ c ∈ ws, isPyWs c = true)
    (hlab : ∀ c, lab.head? = some c → isPyWs c = false ∧ c.isDigit = false)
    (lbl : List Char) (halt : firstAlt priceAlternatives lab = some lbl) :
    searchPrice (ds ++ ws ++ lab) = some (natOfDigits ds, lbl) := by
  cases ds with
  | nil => exact absurd rfl hds
  | cons d ds' =>
    have hm := matchPriceAt_decomp (d :: ds') ws lab (by simp) hdsall hws hwsall hlab
    rw [halt] at hm
    have hm' : matchPriceAt (d :: (ds' ++ ws ++ lab))
        = some (natOfDigits (d :: ds'), lbl) := hm
    show searchPrice (d :: (ds' ++ ws ++ lab)) = some (natOfDigits (d :: ds'), lbl)
    unfold searchPrice
    rw [hm']

theorem firstAlt_congr (alts : List (List Char)) (s s' : List Char)
    (h : lowerL s = lowerL s') : firstAlt alts s = firstAlt alts s' := by
  induction alts with
  | nil => rfl
  | cons a as ih =>
    unfold firstAlt
    rw [lowerEqStarts_eq_listStarts, lowerEqStarts_eq_listStarts, h, ih]

/-! ### Shape and case-invariance facts -/

theorem pyStrip_glue (ds ws lab : List Char)
    (hds : ds ≠ []) (hdsall : ∀ c ∈ ds, c.isDigit = true)
    (hlab : lab ≠ []) (hlab_last : ∀ c, lab.getLast? = some c → isPyWs c = false) :
    pyStrip (ds ++ ws ++ lab) = ds ++ ws ++ lab := by
  apply pyStrip_eq_self
  · intro c hc
    cases ds with
    | nil => exact absurd rfl hds
    | cons d ds' =>
      have : c = d := by
        have : (d :: ds' ++ ws ++ lab).head? = some d := rfl
        rw [this] at hc
        exact (Option.some_inj.1 hc).symm
      subst this
      exact isPyWs_eq_false_of_isDigit c (hdsall c (by simp))
  · intro c hc
    rw [List.getLast?_append] at hc
    rw [List.getLast?_append] at hc
    cases hl : lab.getLast? with
    | none => exact absurd (List.getLast?_eq_none_iff.1 hl) hlab
    | some b =>
      rw [hl] at hc
      simp only [Option.or_some] at hc
      exact hlab_last c (by rw [hl, ← hc])

theorem map_lowerChar_dropWhile (l : List Char) :
    (l.dropWhile isPyWs).map lowerChar = (l.map lowerChar).dropWhile isPyWs := by
  induction l with
  | nil => rfl
  | cons a t ih =>
    cases ha : isPyWs a with
    | true =>
      rw [List.dropWhile_cons_of_pos ha, List.map_cons,
        List.dropWhile_cons_of_pos (by rw [isPyWs_lowerChar]; exact ha)]
      exact ih
    | false =>
      rw [List.dropWhile_cons_of_neg (by simp [ha]), List.map_cons,
        List.dropWhile_cons_of_neg (by simp [isPyWs_lowerChar, ha])]

theorem lowerL_pyStrip (l : List Char) : lowerL (pyStrip l) = pyStrip (lowerL l) := by
  unfold pyStrip lowerL
  rw [List.map_reverse, map_lowerChar_dropWhile, List.map_reverse,
    map_lowerChar_dropWhile]

theorem districtFactS_congr (s s' : List Char) (h : lowerL s = lowerL s') :
    districtFactS s = districtFactS s' := by
  unfold districtFactS
  simp only [h]

theorem districtFact_congr (l l' : List Char) (h : lowerL l = lowerL l') :
    districtFact l = districtFact l' := by
  unfold districtFact
  apply districtFactS_congr
  rw [lowerL_pyStrip, lowerL_pyStrip, h]

theorem districtFact_mem (l : List Char) (p : String × Nat)
    (h : districtFact l = some p) : p ∈ district_map :=
  districtFactS_mem (pyStrip l) p h

theorem stepCharter_lookup_ne (st : RecState) (s : List Char) (k : String)
    (h : k ≠ "Charter Renewal") :
    List.lookup k (stepCharter st s).prices = List.lookup k st.prices := by
  unfold stepCharter
  cases charterQty s with
  | none => rfl
  | some q =>
    dsimp only
    exact lookup_bump_ne _ _ _ _ h

theorem firstAlt_mem_map (alts : List (List Char)) (s lbl : List Char)
    (h : firstAlt alts s = some lbl) : lbl ∈ alts.map (List.map lowerChar) := by
  induction alts with
  | nil => exact absurd h (by simp [firstAlt])
  | cons a as ih =>
    unfold firstAlt at h
    by_cases hc : lowerEqStarts a s = true
    · rw [if_pos hc] at h
      simp [← Option.some_inj.1 h]
    · rw [if_neg hc] at h
      exact List.mem_cons_of_mem _ (ih h)

theorem matchPriceAt_label (cs : List Char) (k : Nat) (lbl : List Char)
    (h : matchPriceAt cs = some (k, lbl)) :
    lbl ∈ priceAlternatives.map (List.map lowerChar) := by
  unfold matchPriceAt at h
  split_ifs at h
  cases hf : firstAlt priceAlternatives ((cs.dropWhile Char.isDigit).dropWhile isPyWs) with
  | none => rw [hf] at h; exact absurd h (by simp)
  | some label =>
    rw [hf] at h
    have : label = lbl := by
      have := Option.some_inj.1 h
      exact congrArg Prod.snd this
    rw [← this]
    exact firstAlt_mem_map _ _ _ hf

theorem searchPrice_label (s : List Char) (k : Nat) (lbl : List Char)
    (h : searchPrice s = some (k, lbl)) :
    lbl ∈ priceAlternatives.map (List.map lowerChar) := by
  induction s with
  | nil => exact absurd h (by simp [searchPrice])
  | cons c rest ih =>
    unfold searchPrice at h
    cases hm : matchPriceAt (c :: rest) with
    | some r =>
      rw [hm] at h
      obtain ⟨k', lbl'⟩ := r
      have hk : (k', lbl') = (k, lbl) := Option.some_inj.1 h
      exact matchPriceAt_label (c :: rest) k lbl (by rw [hm, hk])
    | none =>
      rw [hm] at h
      exact ih h

/-! ### Facts about case-variant labels -/

theorem head_facts_of_lowerL (lab : List Char) (x : Char) (L : List Char)
    (hL : lowerL lab = L) (hLh : L.head? = some x)
    (hx1 : isPyWs x = false) (hx2 : x.isDigit = false) :
    ∀ c, lab.head? = some c → isPyWs c = false ∧ c.isDigit = false := by
  intro c hc
  have hlc : lowerChar c = x := by
    have h2 : (lowerL lab).head? = some x := by rw [hL]; exact hLh
    rw [lowerL, List.head?_map, hc] at h2
    exact Option.some_inj.1 h2
  constructor
  · rw [← isPyWs_lowerChar, hlc]; exact hx1
  · cases hd : c.isDigit
    · rfl
    · have hcx : c = x := by rw [← lowerChar_of_isDigit c hd]; exact hlc
      exact absurd (hcx ▸ hd) (by simp [hx2])

theorem nondigit_of_lowerL (lab L : List Char) (hL : lowerL lab = L)
    (hLd : ∀ x ∈ L, x.isDigit = false) : ∀ c ∈ lab, c.isDigit = false := by
  intro c hc
  apply isDigit_eq_false_of_lowerChar_mem c L hLd
  rw [← hL]
  exact List.mem_map_of_mem _ hc

theorem last_ws_false_of_lowerL (lab L : List Char) (x : Char) (hL : lowerL lab = L)
    (hLl : L.getLast? = some x) (hx : isPyWs x = false) :
    ∀ c, lab.getLast? = some c → isPyWs c = false := by
  intro c hc
  have hlc : lowerChar c = x := by
    have h2 : (lowerL lab).getLast? = some x := by rw [hL]; exact hLl
    rw [lowerL, List.getLast?_map, hc] at h2
    exact Option.some_inj.1 h2
  rw [← isPyWs_lowerChar, hlc]
  exact hx

theorem ne_nil_of_lowerL (lab L : List Char) (hL : lowerL lab = L) (h : L ≠ []) :
    lab ≠ [] := by
  intro h0
  subst h0
  exact h hL.symm

theorem not_mem_glue (ds ws lab : List Char) (c : Char)
    (hdsall : ∀ x ∈ ds, x.isDigit = true) (hwsall : ∀ x ∈ ws, isPyWs x = true)
    (hcd : c.isDigit = false) (hcw : isPyWs c = false)
    (hcl : lowerChar c ∉ lowerL lab) : c ∉ ds ++ ws ++ lab := by
  intro hc
  simp only [List.mem_append] at hc
  rcases hc with (hc | hc) | hc
  · exact absurd (hdsall c hc) (by simp [hcd])
  · exact absurd (hwsall c hc) (by simp [hcw])
  · exact hcl (List.mem_map_of_mem _ hc)

theorem charterQty_none (s : List Char)
    (h1 : charListHas "Charter Renewal".toList s = false)
    (h2 : charListHas "Unit Charter".toList s = false) : charterQty s = none := by
  unfold charterQty
  rw [h1, h2]
  simp

/-! ### Per-line preservation under absent keywords -/

theorem processLine_unit_preserve (st : RecState) (l : List Char)
    (h : (charListHas "Troop".toList (pyStrip l) || charListHas "Pack".toList (pyStrip l) ||
          charListHas "Crew".toList (pyStrip l) || charListHas "Ship".toList (pyStrip l) ||
          charListHas "Post".toList (pyStrip l)) = false) :
    (processLine st l).local_unit_number = st.local_unit_number := by
  unfold processLine
  rw [(stepPrice_scalars _ _).2.2.1, (stepProgram_scalars _ _).2.2.1,
    (stepCharter_scalars _ _).2.2.1]
  unfold stepUnit
  rw [if_neg (by simp only [h]; exact Bool.false_ne_true)]
  exact (stepDistrict_scalars _ _).1

theorem processLine_program_preserve (st : RecState) (l : List Char)
    (h1 : (charListHas "Scouts BSA".toList (pyStrip l) ||
           charListHas "Troop".toList (pyStrip l)) = false)
    (h2 : (charListHas "Cub Scouts".toList (pyStrip l) ||
           charListHas "Pack".toList (pyStrip l)) = false)
    (h3 : (charListHas "Venturing".toList (pyStrip l) ||
           charListHas "Crew".toList (pyStrip l)) = false)
    (h4 : (charListHas "Sea Scouts".toList (pyStrip l) ||
           charListHas "Ship".toList (pyStrip l)) = false)
    (h5 : (charListHas "Exploring".toList (pyStrip l) ||
           charListHas "Post".toList (pyStrip l)) = false) :
    (processLine st l).program = st.program := by
  unfold processLine
  rw [(stepPrice_scalars _ _).2.2.2.1]
  unfold stepProgram
  rw [if_neg (by simp only [h1]; exact Bool.false_ne_true),
    if_neg (by simp only [h2]; exact Bool.false_ne_true),
    if_neg (by simp only [h3]; exact Bool.false_ne_true),
    if_neg (by simp only [h4]; exact Bool.false_ne_true),
    if_neg (by simp only [h5]; exact Bool.false_ne_true)]
  rw [(stepCharter_scalars _ _).2.2.2, (stepUnit_scalars _ _).2.2.1]
  exact (stepDistrict_scalars _ _).2.1

/-! ### Youth Renewal / Youth New line shapes -/

theorem processLine_def (st : RecState) (l : List Char) :
    processLine st l =
      stepPrice (stepProgram (stepCharter (stepUnit (stepDistrict st (pyStrip l))
        (pyStrip l)) (pyStrip l)) (pyStrip l)) (pyStrip l) := rfl

theorem processLine_youth_renewal (st : RecState) (ds ws lab : List Char)
    (hds : ds ≠ []) (hdsall : ∀ c ∈ ds, c.isDigit = true)
    (hws : ws ≠ []) (hwsall : ∀ c ∈ ws, isPyWs c = true)
    (hlab : lowerL lab = "youth renewal".toList) :
    List.lookup "Youth Registration" (processLine st (ds ++ ws ++ lab)).prices
      = (List.lookup "Youth Registration" st.prices).map
          (fun x => x + Int.ofNat (natOfDigits ds)) := by
  have hlabne : lab ≠ [] := ne_nil_of_lowerL lab _ hlab (by decide)
  have hhead := head_facts_of_lowerL lab 'y' _ hlab (by decide) (by decide) (by decide)
  have hlast := last_ws_false_of_lowerL lab _ 'l' hlab (by decide) (by decide)
  have hstrip : pyStrip (ds ++ ws ++ lab) = ds ++ ws ++ lab :=
    pyStrip_glue ds ws lab hds hdsall hlabne hlast
  have halt : firstAlt priceAlternatives lab = some ("youth renewal".toList) := by
    rw [firstAlt_congr priceAlternatives lab ("youth renewal".toList)
      (by rw [hlab]; decide)]
    decide
  have hsp : searchPrice (ds ++ ws ++ lab)
      = some (natOfDigits ds, "youth renewal".toList) :=
    searchPrice_shape_some ds ws lab hds hdsall hws hwsall hhead _ halt
  rw [processLine_def, hstrip]
  have hstep : ∀ X : RecState, stepPrice X (ds ++ ws ++ lab)
      = { X with prices := (bump X.prices "Youth Registration" (Int.ofNat (natOfDigits ds))) } := by
    intro X
    unfold stepPrice
    rw [hsp]
    dsimp only
    rw [if_neg (by decide), if_pos (by decide)]
  rw [hstep]
  dsimp only
  rw [lookup_bump_self, (stepProgram_scalars _ _).2.2.2.2,
    stepCharter_lookup_ne _ _ _ (by decide), (stepUnit_scalars _ _).2.2.2.2,
    (stepDistrict_scalars _ _).2.2.2]

theorem fold_youth_renewal (ts : List (List Char × List Char × List Char)) :
    ∀ (st : RecState) (v : Int),
    (∀ t ∈ ts, t.1 ≠ [] ∧ (∀ c ∈ t.1, c.isDigit = true) ∧ t.2.1 ≠ [] ∧
      (∀ c ∈ t.2.1, isPyWs c = true) ∧ lowerL t.2.2 = "youth renewal".toList) →
    List.lookup "Youth Registration" st.prices = some v →
    List.lookup "Youth Registration"
        (List.foldl processLine st (ts.map glueLine)).prices
      = some (v + (ts.map (fun t => Int.ofNat (natOfDigits t.1))).sum) := by
  induction ts with
  | nil =>
    intro st v _ hv
    simpa using hv
  | cons t ts' ih =>
    intro st v hshape hv
    obtain ⟨h1, h2, h3, h4, h5⟩ := hshape t (by simp)
    simp only [List.map_cons, List.foldl_cons]
    have hline := processLine_youth_renewal st t.1 t.2.1 t.2.2 h1 h2 h3 h4 h5
    have hv' : List.lookup "Youth Registration" (processLine st (glueLine t)).prices
        = some (v + Int.ofNat (natOfDigits t.1)) := by
      show List.lookup "Youth Registration"
          (processLine st (t.1 ++ t.2.1 ++ t.2.2)).prices = _
      rw [hline, hv]
      rfl
    have hrec := ih (processLine st (glueLine t)) (v + Int.ofNat (natOfDigits t.1))
      (fun u hu => hshape u (by simp [hu])) hv'
    rw [hrec]
    simp [add_assoc]

theorem processLine_youth_new (st : RecState) (ds ws lab : List Char)
    (hds : ds ≠ []) (hdsall : ∀ c ∈ ds, c.isDigit = true)
    (hws : ws ≠ []) (hwsall : ∀ c ∈ ws, isPyWs c = true)
    (hlab : lowerL lab = "youth new".toList) :
    (processLine st (ds ++ ws ++ lab)).prices = st.prices := by
  have hlabne : lab ≠ [] := ne_nil_of_lowerL lab _ hlab (by decide)
  have hhead := head_facts_of_lowerL lab 'y' _ hlab (by decide) (by decide) (by decide)
  have hlast := last_ws_false_of_lowerL lab _ 'w' hlab (by decide) (by decide)
  have hstrip : pyStrip (ds ++ ws ++ lab) = ds ++ ws ++ lab :=
    pyStrip_glue ds ws lab hds hdsall hlabne hlast
  have hnd := nondigit_of_lowerL lab _ hlab (by decide)
  have halt : firstAlt priceAlternatives lab = none := by
    rw [firstAlt_congr priceAlternatives lab ("youth new".toList)
      (by rw [hlab]; decide)]
    decide
  have hsp : searchPrice (ds ++ ws ++ lab) = none :=
    searchPrice_none_shape ws lab hws hwsall hhead hnd halt ds hdsall
  have hC1 : charListHas "Charter Renewal".toList (ds ++ ws ++ lab) = false :=
    charListHas_eq_false_of_not_mem _ _ 'C' (by decide)
      (not_mem_glue ds ws lab 'C' hdsall hwsall (by decide) (by decide)
        (by rw [hlab]; decide))
  have hC2 : charListHas "Unit Charter".toList (ds ++ ws ++ lab) = false :=
    charListHas_eq_false_of_not_mem _ _ 'C' (by decide)
      (not_mem_glue ds ws lab 'C' hdsall hwsall (by decide) (by decide)
        (by rw [hlab]; decide))
  have hq : charterQty (ds ++ ws ++ lab) = none := charterQty_none _ hC1 hC2
  rw [processLine_def, hstrip, stepPrice_of_none _ _ hsp, (stepProgram_scalars _ _).2.2.2.2,
    stepCharter_of_none _ _ hq, (stepUnit_scalars _ _).2.2.2.2,
    (stepDistrict_scalars _ _).2.2.2]

/-! ### Claim theorems -/

/-- C1: for the line sequence ["Calumet District", "Troop 123",
"5 Youth Renewal", "Charter Renewal 2"], the extraction produces a
record with district_name="Calumet", district_number=1,
local_unit_number="123", program="Scouts BSA",
prices["Youth Registration"]=5, prices["Charter Renewal"]=2 and
charter_renewal=2. -/
theorem extract_end_to_end_scenario :
    (processLines ["Calumet District".toList, "Troop 123".toList,
        "5 Youth Renewal".toList, "Charter Renewal 2".toList]).district_name
      = some "Calumet".toList ∧
    (processLines ["Calumet District".toList, "Troop 123".toList,
        "5 Youth Renewal".toList, "Charter Renewal 2".toList]).district_number
      = some 1 ∧
    (processLines ["Calumet District".toList, "Troop 123".toList,
        "5 Youth Renewal".toList, "Charter Renewal 2".toList]).local_unit_number
      = some "123".toList ∧
    (processLines ["Calumet District".toList, "Troop 123".toList,
        "5 Youth Renewal".toList, "Charter Renewal 2".toList]).program
      = some "Scouts BSA".toList ∧
    List.lookup "Youth Registration"
      (processLines ["Calumet District".toList, "Troop 123".toList,
        "5 Youth Renewal".toList, "Charter Renewal 2".toList]).prices = some 5 ∧
    List.lookup "Charter Renewal"
      (processLines ["Calumet District".toList, "Troop 123".toList,
        "5 Youth Renewal".toList, "Charter Renewal 2".toList]).prices = some 2 ∧
    (processLines ["Calumet District".toList, "Troop 123".toList,
        "5 Youth Renewal".toList, "Charter Renewal 2".toList]).charter_renewal
      = some 2 := by decide

/-- C2: with two or more charter-triggering lines,
prices["Charter Renewal"] accumulates the sum of all per-line corrected
quantities while charter_renewal holds only the last line's quantity;
and on any single line either both are updated together with the same
quantity or neither changes. -/
theorem charter_renewal_sum_vs_last (lines : List (List Char))
    (htwo : 2 ≤ (lines.filterMap charterFact).length) :
    priceOf (processLines lines).prices "Charter Renewal"
      = ((lines.filterMap charterFact).map Int.ofNat).sum ∧
    (processLines lines).charter_renewal = (lines.filterMap charterFact).getLast? ∧
    ∀ (st : RecState) (l : List Char),
      (match charterFact l with
       | some q =>
         (processLine st l).charter_renewal = some q ∧
         List.lookup "Charter Renewal" (processLine st l).prices
           = (List.lookup "Charter Renewal" st.prices).map (fun x => x + Int.ofNat q)
       | none =>
         (processLine st l).charter_renewal = st.charter_renewal ∧
         List.lookup "Charter Renewal" (processLine st l).prices
           = List.lookup "Charter Renewal" st.prices) := by
  refine ⟨?_, ?_, ?_⟩
  · have h := (fold_charter lines initState).2 0 (by decide)
    unfold processLines priceOf
    rw [h]
    simp
  · have h := (fold_charter lines initState).1
    cases hg : (lines.filterMap charterFact).getLast? with
    | none =>
      exfalso
      have hnil : lines.filterMap charterFact = [] := List.getLast?_eq_none_iff.1 hg
      rw [hnil] at htwo
      simp at htwo
    | some q =>
      unfold processLines
      rw [h, hg]
  · intro st l
    have h1 := (processLine_charter st l).1
    have h2 := (processLine_charter st l).2
    cases hf : charterFact l with
    | some q =>
      rw [hf] at h1 h2
      dsimp only at h1 h2
      exact ⟨h1, h2⟩
    | none =>
      rw [hf] at h1 h2
      dsimp only at h1 h2
      exact ⟨h1, h2⟩

/-- C2 witness: two renewal lines, quantities 2 and 3: the price entry
sums to 5 while charter_renewal keeps 3. -/
theorem charter_renewal_sum_vs_last_witness :
    priceOf (processLines ["Charter Renewal 2".toList,
        "Unit Charter 3".toList]).prices "Charter Renewal" = 5 ∧
    (processLines ["Charter Renewal 2".toList,
        "Unit Charter 3".toList]).charter_renewal = some 3 := by
  have h := charter_renewal_sum_vs_last
    ["Charter Renewal 2".toList, "Unit Charter 3".toList] (by decide)
  exact ⟨h.1.trans (by decide), (h.2.1).trans (by decide)⟩

/-- C3: when the first digit run of a line parses to exactly 100, a
"Unit Charter" trigger corrects the quantity to 1 while a
"Charter Renewal"-only trigger keeps 100; any quantity other than 100
is never corrected.  Concretely "Unit Charter 100" yields
charter_renewal = 1 and "Charter Renewal 100" yields 100. -/
theorem unit_charter_hundred_correction :
    (∀ s ds : List Char, firstDigitRun s = some ds → natOfDigits ds = 100 →
      (charListHas "Unit Charter".toList s = true → charterQty s = some 1) ∧
      (charListHas "Charter Renewal".toList s = true →
        charListHas "Unit Charter".toList s = false → charterQty s = some 100)) ∧
    (processLines ["Unit Charter 100".toList]).charter_renewal = some 1 ∧
    (processLines ["Charter Renewal 100".toList]).charter_renewal = some 100 ∧
    (∀ s ds : List Char, firstDigitRun s = some ds → natOfDigits ds ≠ 100 →
      (charListHas "Charter Renewal".toList s = true ∨
       charListHas "Unit Charter".toList s = true) →
      charterQty s = some (natOfDigits ds)) := by
  refine ⟨?_, by decide, by decide, ?_⟩
  · intro s ds hfd h100
    constructor
    · intro hUC
      unfold charterQty
      rw [hUC]
      simp [hfd, h100]
    · intro hCR hUC
      unfold charterQty
      rw [hCR, hUC]
      simp [hfd, h100]
  · intro s ds hfd hne htrig
    have hcond : (charListHas "Charter Renewal".toList s ||
        charListHas "Unit Charter".toList s) = true := by
      rw [Bool.or_eq_true]
      exact htrig
    unfold charterQty
    rw [if_pos hcond, hfd]
    cases hUC : charListHas "Unit Charter".toList s <;> simp [hUC, hne]

/-- C3 witness: the correction and non-correction at concrete lines. -/
theorem unit_charter_hundred_correction_witness :
    charterQty "Unit Charter 100".toList = some 1 ∧
    charterQty "Charter Renewal 100".toList = some 100 ∧
    charterQty "Charter Renewal 7".toList = some 7 := by
  have h := unit_charter_hundred_correction
  refine ⟨(h.1 "Unit Charter 100".toList "100".toList (by decide) (by decide)).1
      (by decide),
    (h.1 "Charter Renewal 100".toList "100".toList (by decide) (by decide)).2
      (by decide) (by decide), ?_⟩
  exact h.2.2.2 "Charter Renewal 7".toList "7".toList (by decide) (by decide)
    (by decide)

/-- C4: district name and number are only ever written together as a
pair from the fixed ten-entry table (whose non-contiguous numbering is
preserved exactly), and the final pair comes from the latest matching
line, the last matching table entry winning within a line. -/
theorem district_pair_consistency (lines : List (List Char)) :
    (match (lines.filterMap districtFact).getLast? with
     | some p =>
       (processLines lines).district_name = some p.1.toList ∧
       (processLines lines).district_number = some p.2 ∧ p ∈ district_map
     | none =>
       (processLines lines).district_name = none ∧
       (processLines lines).district_number = none) ∧
    district_map = [("Calumet", 1), ("Aguila", 2), ("Prairie Dunes", 3),
      ("Thunderbird", 4), ("Checaugau", 5), ("Iron Horse", 6), ("Tri-Star", 7),
      ("Five Creeks", 9), ("Tall Grass", 11), ("Trailblazer", 12)] := by
  refine ⟨?_, rfl⟩
  have h1 := (fold_district lines initState).1
  have h2 := (fold_district lines initState).2
  cases hg : (lines.filterMap districtFact).getLast? with
  | none =>
    rw [hg] at h1 h2
    dsimp only at h1 h2
    exact ⟨h1, h2⟩
  | some p =>
    rw [hg] at h1 h2
    dsimp only at h1 h2
    refine ⟨h1, h2, ?_⟩
    have hp : p ∈ lines.filterMap districtFact := List.mem_of_mem_getLast? hg
    rcases List.mem_filterMap.1 hp with ⟨l, _, hfl⟩
    exact districtFact_mem l p hfl

/-- C5: for any sequence of lines of the form "<k> Youth Renewal"
(digit run, whitespace run, case-insensitive label), the final
prices["Youth Registration"] equals the sum of the k-values, each line
contributing additively. -/
theorem youth_renewal_sum_law (ts : List (List Char × List Char × List Char))
    (hshape : ∀ t ∈ ts, t.1 ≠ [] ∧ (∀ c ∈ t.1, c.isDigit = true) ∧ t.2.1 ≠ [] ∧
      (∀ c ∈ t.2.1, isPyWs c = true) ∧ lowerL t.2.2 = "youth renewal".toList) :
    priceOf (processLines (ts.map glueLine)).prices "Youth Registration"
      = (ts.map (fun t => Int.ofNat (natOfDigits t.1))).sum := by
  have h := fold_youth_renewal ts initState 0 hshape (by decide)
  unfold processLines priceOf
  rw [h]
  simp

/-- C5 witness: "5 Youth Renewal" and "7 yOuTh ReNeWaL" sum to 12. -/
theorem youth_renewal_sum_law_witness :
    priceOf (processLines ([("5".toList, " ".toList, "Youth Renewal".toList),
        ("7".toList, " ".toList, "yOuTh ReNeWaL".toList)].map glueLine)).prices
      "Youth Registration" = 12 := by
  have h := youth_renewal_sum_law
    [("5".toList, " ".toList, "Youth Renewal".toList),
     ("7".toList, " ".toList, "yOuTh ReNeWaL".toList)] (by decide)
  exact h.trans (by decide)

/-- C6: the expiration date is always recomputed from the record's
final effective date by the pure function adding 365 days and
subtracting 1 day; 2024-03-01 maps to 2025-02-28. -/
theorem expiration_date_derivation :
    (∀ (eff : Date) (lines : List (List Char)),
      (buildRecord eff lines).expiration_date
        = deriveExpiration (buildRecord eff lines).effective_date) ∧
    (∀ d : Date, deriveExpiration d = subDays (addDays d 365) 1) ∧
    deriveExpiration ⟨2024, 3, 1⟩ = ⟨2025, 2, 28⟩ ∧
    formatIso ⟨2024, 3, 1⟩ = "2024-03-01".toList ∧
    formatIso (deriveExpiration ⟨2024, 3, 1⟩) = "2025-02-28".toList :=
  ⟨fun _ _ => rfl, fun _ => rfl, by decide, by decide, by decide⟩

/-- C7 counterexample: program-keyword matching is case-sensitive in
the code, so changing the letter case of a line does change the program
fact, contrary to the claim: "Scouts BSA" sets the program while its
lowercased variant "scouts bsa" sets nothing. -/
theorem program_case_sensitivity_cex :
    (processLines ["Scouts BSA".toList]).program = some "Scouts BSA".toList ∧
    (processLines ["scouts bsa".toList]).program = none := by decide

/-- C7 amended: keyword matching is case-insensitive for district
keywords only; both the unit-type keywords and the program keywords are
matched case-sensitively, so an altered-case unit or program keyword
yields no fact. -/
theorem keyword_case_asymmetry :
    (∀ l l' : List Char, lowerL l = lowerL l' → districtFact l = districtFact l') ∧
    (∀ (st : RecState) (l : List Char),
      (charListHas "Troop".toList (pyStrip l) || charListHas "Pack".toList (pyStrip l) ||
       charListHas "Crew".toList (pyStrip l) || charListHas "Ship".toList (pyStrip l) ||
       charListHas "Post".toList (pyStrip l)) = false →
      (processLine st l).local_unit_number = st.local_unit_number) ∧
    (∀ (st : RecState) (l : List Char),
      (charListHas "Scouts BSA".toList (pyStrip l) ||
       charListHas "Troop".toList (pyStrip l)) = false →
      (charListHas "Cub Scouts".toList (pyStrip l) ||
       charListHas "Pack".toList (pyStrip l)) = false →
      (charListHas "Venturing".toList (pyStrip l) ||
       charListHas "Crew".toList (pyStrip l)) = false →
      (charListHas "Sea Scouts".toList (pyStrip l) ||
       charListHas "Ship".toList (pyStrip l)) = false →
      (charListHas "Exploring".toList (pyStrip l) ||
       charListHas "Post".toList (pyStrip l)) = false →
      (processLine st l).program = st.program) ∧
    (processLines ["troop 123".toList]).local_unit_number = none ∧
    (processLines ["scouts bsa".toList]).program = none ∧
    (processLines ["CALUMET district".toList]).district_name
      = some "Calumet".toList := by
  refine ⟨fun l l' h => districtFact_congr l l' h,
    fun st l h => processLine_unit_preserve st l h,
    fun st l h1 h2 h3 h4 h5 => processLine_program_preserve st l h1 h2 h3 h4 h5,
    by decide, by decide, by decide⟩

/-- C7 amended witness: concrete instances of the three general parts. -/
theorem keyword_case_asymmetry_witness :
    districtFact "CALUMET".toList = districtFact "calumet".toList ∧
    (processLine initState "troop 9".toList).local_unit_number = none ∧
    (processLine initState "scouts bsa".toList).program = none := by
  have h := keyword_case_asymmetry
  refine ⟨h.1 "CALUMET".toList "calumet".toList (by decide), ?_, ?_⟩
  · exact h.2.1 initState "troop 9".toList (by decide)
  · exact h.2.2.1 initState "scouts bsa".toList (by decide) (by decide) (by decide)
      (by decide) (by decide)

/-- C8: for every line sequence the output prices mapping carries
exactly the fixed 11 fee-category keys, in order, and every value is a
non-negative integer. -/
theorem prices_keys_complete_nonneg (lines : List (List Char)) :
    ((processLines lines).prices).map Prod.fst = priceKeys ∧
    ∀ p ∈ (processLines lines).prices, 0 ≤ p.2 := by
  constructor
  · have h := fold_keys lines initState
    unfold processLines
    rw [h]
    decide
  · exact fold_nonneg lines initState (by decide)

/-- C8 witness: the key list and a non-negative entry at a concrete
line sequence. -/
theorem prices_keys_complete_nonneg_witness :
    ((processLines ["Troop 42".toList]).prices).map Prod.fst = priceKeys ∧
    (0 : Int) ≤ (("Youth Registration", (0 : Int))).2 := by
  have h := prices_keys_complete_nonneg ["Troop 42".toList]
  exact ⟨h.1, h.2 ("Youth Registration", 0) (by decide)⟩

/-- C9: a rasterization failure aborts the pipeline with the labelled
error and nothing is persisted; a classification failure likewise; a
successful run is possible only when both stages succeeded, and the
concrete extraction stage always returns the complete built record. -/
theorem pipeline_failure_propagation :
    (∀ (e : List Char) (classify : List (List Char) → Except (List Char) FullRecord),
      runPipeline (Except.error e) classify
        = Except.error
            ("Failed to process receipt: Failed to convert PDF to image: ".toList ++ e) ∧
      persistedRecord (runPipeline (Except.error e) classify) = none) ∧
    (∀ (lines : List (List Char)) (e : List Char)
        (classify : List (List Char) → Except (List Char) FullRecord),
      classify lines = Except.error e →
      runPipeline (Except.ok lines) classify
        = Except.error ("Failed to process receipt: ".toList ++ e) ∧
      persistedRecord (runPipeline (Except.ok lines) classify) = none) ∧
    (∀ (conv : Except (List Char) (List (List Char)))
        (classify : List (List Char) → Except (List Char) FullRecord)
        (r : FullRecord),
      runPipeline conv classify = Except.ok r →
      ∃ lines, conv = Except.ok lines ∧ classify lines = Except.ok r) ∧
    (∀ (eff : Date) (lines : List (List Char)),
      runPipeline (Except.ok lines) (fun ls => Except.ok (buildRecord eff ls))
        = Except.ok (buildRecord eff lines)) := by
  refine ⟨fun e classify => ⟨rfl, rfl⟩, ?_, ?_, fun eff lines => rfl⟩
  · intro lines e classify h
    constructor
    · unfold runPipeline
      dsimp only
      rw [h]
    · unfold persistedRecord runPipeline
      dsimp only
      rw [h]
  · intro conv classify r h
    cases conv with
    | error e =>
      exact absurd h (by unfold runPipeline; simp)
    | ok lines =>
      cases hc : classify lines with
      | error e =>
        unfold runPipeline at h
        dsimp only at h
        rw [hc] at h
        exact absurd h (by simp)
      | ok r' =>
        unfold runPipeline at h
        dsimp only at h
        rw [hc] at h
        have hr : r' = r := by
          injection h
        exact ⟨lines, rfl, by rw [hc, hr]⟩

/-- C9 witness: concrete failing and succeeding runs. -/
theorem pipeline_failure_propagation_witness :
    runPipeline (Except.error "boom".toList)
        (fun ls => (Except.ok (buildRecord ⟨2024, 3, 1⟩ ls) :
          Except (List Char) FullRecord))
      = Except.error
          ("Failed to process receipt: Failed to convert PDF to image: boom".toList) ∧
    runPipeline (Except.ok ([] : List (List Char))) (fun _ => Except.error "bad".toList)
      = Except.error ("Failed to process receipt: bad".toList) ∧
    (∃ lines, (Except.ok ([] : List (List Char)) :
        Except (List Char) (List (List Char))) = Except.ok lines ∧
      (Except.ok (buildRecord ⟨2024, 3, 1⟩ lines) : Except (List Char) FullRecord)
        = Except.ok (buildRecord ⟨2024, 3, 1⟩ [])) := by
  have h := pipeline_failure_propagation
  refine ⟨?_, ?_, ?_⟩
  · exact (h.1 "boom".toList _).1.trans (congrArg Except.error (by decide))
  · exact (h.2.1 [] "bad".toList _ rfl).1.trans (congrArg Except.error (by decide))
  · have h3 := h.2.2.1 (Except.ok [])
      (fun ls => (Except.ok (buildRecord ⟨2024, 3, 1⟩ ls) :
        Except (List Char) FullRecord))
      (buildRecord ⟨2024, 3, 1⟩ []) rfl
    exact h3

/-- C10: a line "<k> Youth New" (digit run, whitespace, any-case label)
produces no priced-line-item fact: the prices dictionary is unchanged;
moreover no label the priced-item regex can return ever contains
"youth new", so that branch of the label mapping is unreachable. -/
theorem youth_new_unreachable :
    (∀ (st : RecState) (ds ws lab : List Char),
      ds ≠ [] → (∀ c ∈ ds, c.isDigit = true) →
      ws ≠ [] → (∀ c ∈ ws, isPyWs c = true) →
      lowerL lab = "youth new".toList →
      (processLine st (ds ++ ws ++ lab)).prices = st.prices) ∧
    (∀ (s : List Char) (k : Nat) (lbl : List Char),
      searchPrice s = some (k, lbl) →
      charListHas "youth new".toList lbl = false) := by
  constructor
  · intro st ds ws lab h1 h2 h3 h4 h5
    exact processLine_youth_new st ds ws lab h1 h2 h3 h4 h5
  · intro s k lbl h
    have hm := searchPrice_label s k lbl h
    have hall : ∀ x ∈ priceAlternatives.map (List.map lowerChar),
        charListHas "youth new".toList x = false := by decide
    exact hall lbl hm

/-- C10 witness: the concrete line "5 Youth New" leaves the initial
prices untouched, and the label of "5 Youth Renewal" does not contain
"youth new". -/
theorem youth_new_unreachable_witness :
    (processLine initState ("5".toList ++ " ".toList ++ "Youth New".toList)).prices
      = initState.prices ∧
    charListHas "youth new".toList "youth renewal".toList = false := by
  have h := youth_new_unreachable
  refine ⟨h.1 initState "5".toList " ".toList "Youth New".toList (by decide)
      (by decide) (by decide) (by decide) (by decide), ?_⟩
  exact h.2 "5 Youth Renewal".toList 5 "youth renewal".toList (by decide)
